import Mathlib

/-!
Verification of the kgx SPARQL transformer module (kgx/sparql_transformer.py).

The module fetches triples from a SPARQL endpoint and loads them into an
in-memory graph.  We embed the two loaders shallowly:

* `SparqlTransformer.load_networkx_graph` — the generic loader: one query per
  predicate, literal-valued objects become node attributes, resource-valued
  objects become edges.
* `RedSparqlTransformer.load_networkx_graph` — the association-scoped loader:
  per predicate it issues a count query, then pages through the edge results
  with offset/limit windows of step 1000, collects the subject/object
  identifiers of each page, resolves node attributes in chunks of 10000
  (`load_nodes` / `_grouper`), adds one edge per returned binding row, and
  finally runs `categorize`.

The remote endpoint is a parameter (`Endpoint` / `GenEndpoint`): a function
from queries to result bindings.  A run of a loader is modelled as the list
of observable calls it makes (`Event`): queries issued and graph-mutator
calls (`add_edge`, `add_node_attribute`), plus the final `categorize` call.
-/

/-- One SPARQL result binding row, keeping exactly the fields the source
reads: `r['subject']['value']`, `r['predicate']['value']`,
`r['object']['value']` and `r['object']['type']`. -/
structure Binding where
  subject : String
  predicate : String
  object : String
  objectType : String
deriving DecidableEq, Repr

/-- Observable actions of a loader run: queries sent to the endpoint and
calls into the graph mutator (RdfGraphMixin). -/
inductive Event where
  | countQuery : String → Event
  | edgeQuery : String → Nat → Nat → Event
  | nodeQuery : List String → Event
  | addEdge : String → String → String → Event
  | addNodeAttr : String → String → String → Event
  | categorizeCall : Event
deriving DecidableEq, Repr

def toEdgeQuery : Event → Option (String × Nat × Nat)
  | Event.edgeQuery a off lim => some (a, off, lim)
  | _ => none

def toAddEdge : Event → Option (String × String × String)
  | Event.addEdge s o p => some (s, o, p)
  | _ => none

def toNodeQuery : Event → Option (List String)
  | Event.nodeQuery ns => some ns
  | _ => none

def toAddNodeAttr : Event → Option (String × String × String)
  | Event.addNodeAttr n k v => some (n, k, v)
  | _ => none

/-- The edge-page queries (association, offset, limit) issued in a trace. -/
def edgeQueries (t : List Event) : List (String × Nat × Nat) := t.filterMap toEdgeQuery

/-- The add_edge calls (subject, object, predicate) issued in a trace. -/
def addEdges (t : List Event) : List (String × String × String) := t.filterMap toAddEdge

/-- The node-attribute queries (their VALUES identifier lists) issued in a trace. -/
def nodeQueries (t : List Event) : List (List String) := t.filterMap toNodeQuery

/-- The add_node_attribute calls (node, key, value) issued in a trace. -/
def addNodeAttrs (t : List Event) : List (String × String × String) := t.filterMap toAddNodeAttr

/-- A SPARQL endpoint as seen by `RedSparqlTransformer`: the count query
result per association, the edge-page bindings per (association, offset,
limit), and the node-property bindings per VALUES identifier list. -/
structure Endpoint where
  count : String → Nat
  edgePage : String → Nat → Nat → List Binding
  nodeProps : List String → List Binding

/-- A SPARQL endpoint as seen by the generic `SparqlTransformer`:
result bindings per rendered query predicate. -/
structure GenEndpoint where
  results : String → List Binding

/-- Python `'<{}>'.format(x)`: wrap an identifier in angle brackets, as done
for both the association URI and the collected node identifiers. -/
def wrapIri (x : String) : String := "<" ++ x ++ ">"

/-- Python `range(a, b, c)` for `c > 0`. -/
def pythonRange (a b c : Nat) : List Nat := List.range' a ((b - a + c - 1) / c) c

namespace SparqlTransformer

/-- The generic loader (SparqlTransformer.load_networkx_graph): for every
predicate, query the endpoint once; a binding whose object has type
`literal` yields `add_node_attribute(s, key=p, value=o)`, any other binding
yields `add_edge(s, o, p)`. -/
def load_networkx_graph (ep : GenEndpoint) (predicates : List String) : List Event :=
  predicates.flatMap fun predicate =>
    (ep.results (wrapIri predicate)).flatMap fun r =>
      if r.objectType = "literal" then [Event.addNodeAttr r.subject r.predicate r.object]
      else [Event.addEdge r.subject r.object r.predicate]

end SparqlTransformer

namespace RedSparqlTransformer

/-- Adding an element to a Python `set`, modelled on a duplicate-free list in
insertion order: a no-op when already present. -/
def insertNew (xs : List String) (x : String) : List String :=
  if x ∈ xs then xs else xs ++ [x]

/-- The per-page `node_list` set: for every binding row of the page, add
`"<{}>".format(subject)` and `"<{}>".format(object)`. -/
def collectNodes (bs : List Binding) : List String :=
  bs.foldl (fun acc r => insertNew (insertNew acc (wrapIri r.subject)) (wrapIri r.object)) []

/-- One chunk produced by `zip_longest`: exactly `n` slots, the tail padded
with the fill value `None`. -/
def padChunk (n : Nat) (xs : List String) : List (Option String) :=
  xs.map some ++ List.replicate (n - xs.length) none

/-- Fuel-indexed worker for `_grouper`; the fuel is the input length, enough
because every step consumes at least one element (for `n ≥ 1`). -/
def chunkPadAux (n : Nat) : Nat → List String → List (List (Option String))
  | _, [] => []
  | 0, _ :: _ => []
  | fuel + 1, x :: xs => padChunk n ((x :: xs).take n) :: chunkPadAux n fuel ((x :: xs).drop n)

/-- `_grouper(iterable, n, fillvalue=None)`: collect the data into
fixed-length chunks of `n`, the last one padded with `None`
(`zip_longest(*[iter(iterable)] * n, fillvalue=fillvalue)`). -/
def _grouper (xs : List String) (n : Nat) : List (List (Option String)) :=
  if n = 0 then [] else chunkPadAux n xs.length xs

/-- Python `filter(None, chunk)`: drop the `None` filler and any falsy
(empty) strings; the surviving identifiers go into the VALUES clause. -/
def chunkIds (c : List (Option String)) : List String :=
  (c.filterMap id).filter (fun s => s != "")

/-- Python `str.split(':')` on the character list of a string. -/
def splitOnColon : List Char → List (List Char)
  | [] => [[]]
  | x :: xs =>
    match splitOnColon xs with
    | [] => if x = ':' then [[], []] else [[x]]
    | g :: gs => if x = ':' then [] :: g :: gs else (x :: g) :: gs

/-- `predicate.split(':')[1] if predicate.startswith('bl:') else predicate`:
the attribute-key normalization applied in `load_nodes`. -/
def blNormalize (p : String) : String :=
  if p.data.take 3 = "bl:".data then
    String.mk ((splitOnColon p.data).getD 1 [])
  else p

/-- `d[subject][predicate] = object` on an insertion-ordered attribute map:
overwrite in place when the key exists, append otherwise. -/
def setAttr : List (String × String) → String → String → List (String × String)
  | [], k, v => [(k, v)]
  | (k1, v1) :: rest, k, v =>
    if k1 = k then (k, v) :: rest else (k1, v1) :: setAttr rest k v

/-- `d[subject][predicate] = object` on the insertion-ordered two-level
accumulator `d` of `load_nodes`. -/
def setNodeAttr : List (String × List (String × String)) → String → String → String →
    List (String × List (String × String))
  | [], s, k, v => [(s, [(k, v)])]
  | (s1, attrs) :: rest, s, k, v =>
    if s1 = s then (s, setAttr attrs k v) :: rest else (s1, attrs) :: setNodeAttr rest s k v

/-- One step of the accumulator loop in `load_nodes`: a row whose object is
a blank node is skipped, any other row is recorded under the normalized
predicate key. -/
def recordBinding (d : List (String × List (String × String))) (r : Binding) :
    List (String × List (String × String)) :=
  if r.objectType ≠ "bnode" then setNodeAttr d r.subject (blNormalize r.predicate) r.object
  else d

/-- Flushing the per-chunk accumulator: one `add_node_attribute` call per
recorded (node, key, value). -/
def flushDict (d : List (String × List (String × String))) : List Event :=
  d.flatMap fun p => p.2.map fun q => Event.addNodeAttr p.1 q.1 q.2

/-- Processing of one chunk inside `load_nodes`: strip the filler, issue the
node-attribute query, build the accumulator from the non-bnode rows, flush. -/
def processNodeChunk (ep : Endpoint) (c : List (Option String)) : List Event :=
  let nodes := chunkIds c
  Event.nodeQuery nodes ::
    flushDict ((ep.nodeProps nodes).foldl recordBinding [])

/-- `RedSparqlTransformer.load_nodes`: chunk the node set by 10000 and
process every chunk. -/
def load_nodes (ep : Endpoint) (node_set : List String) : List Event :=
  (_grouper node_set 10000).flatMap (processNodeChunk ep)

/-- One iteration of the pagination loop body: issue the edge query with the
current offset and the fixed limit, collect the page's subject/object
identifiers, run `load_nodes` on them, then add one edge per returned row. -/
def processPage (ep : Endpoint) (a : String) (start step : Nat) : List Event :=
  let bindings := ep.edgePage a start step
  Event.edgeQuery a start step ::
    (load_nodes ep (collectNodes bindings) ++
      bindings.map fun r => Event.addEdge r.subject r.object r.predicate)

/-- The pagination loop `for i in range(step, count + step, step)` over the
remaining loop values, threading the cursor `start`; after processing a page
with loop value `i`, stop when a caller-supplied limit is present and
`i > limit`, otherwise continue with `start = i`. -/
def processPages (ep : Endpoint) (a : String) (limitKw : Option Nat) (step : Nat) :
    List Nat → Nat → List Event
  | [], _ => []
  | i :: rest, start =>
    processPage ep a start step ++
      match limitKw with
      | some l => if l < i then [] else processPages ep a limitKw step rest i
      | none => processPages ep a limitKw step rest i

/-- The loop values of `range(step, count + step, step)` for step 1000. -/
def pageEnds (count : Nat) : List Nat := pythonRange 1000 (count + 1000) 1000

/-- The per-predicate work of `RedSparqlTransformer.load_networkx_graph`:
the count query followed by the paginated edge fetch from offset 0. -/
def perPredicate (ep : Endpoint) (limitKw : Option Nat) (predicate : String) : List Event :=
  Event.countQuery (wrapIri predicate) ::
    processPages ep (wrapIri predicate) limitKw 1000 (pageEnds (ep.count (wrapIri predicate))) 0

/-- `RedSparqlTransformer.load_networkx_graph`: fetch every predicate in
turn, then run `categorize`.  `limitKw` models the optional `limit` keyword
argument. -/
def load_networkx_graph (ep : Endpoint) (predicates : List String) (limitKw : Option Nat) :
    List Event :=
  predicates.flatMap (perPredicate ep limitKw) ++ [Event.categorizeCall]

/-- The binding rows of the pages actually fetched by `processPages`, page
after page in order — the rows the edge-adding loop runs over. -/
def processedBindings (ep : Endpoint) (a : String) (limitKw : Option Nat) (step : Nat) :
    List Nat → Nat → List Binding
  | [], _ => []
  | i :: rest, start =>
    ep.edgePage a start step ++
      match limitKw with
      | some l => if l < i then [] else processedBindings ep a limitKw step rest i
      | none => processedBindings ep a limitKw step rest i

end RedSparqlTransformer

/-- A node's attribute map and the graph, in insertion order. -/
structure Graph where
  nodes : List (String × List (String × String))
  edges : List (String × String × String)
deriving DecidableEq, Repr

/-- Membership of an attribute key in a node's data dict (`'category' in data`). -/
def hasKey (attrs : List (String × String)) (k : String) : Bool :=
  attrs.any fun q => q.1 == k

/-- `data[k]` lookup with default (the key is present at every use site). -/
def getVal (attrs : List (String × String)) (k : String) : String :=
  ((attrs.find? fun q => q.1 == k).map Prod.snd).getD ""

/-- Fuel-indexed worker for `pyReplace`. -/
def replaceAux (pat : List Char) : Nat → List Char → List Char
  | _, [] => []
  | 0, l => l
  | fuel + 1, x :: xs =>
    if pat ≠ [] ∧ (x :: xs).take pat.length = pat then
      replaceAux pat fuel ((x :: xs).drop pat.length)
    else x :: replaceAux pat fuel xs

/-- Python `s.replace(pat, '')`: delete every occurrence of `pat`, scanning
left to right. -/
def pyReplace (s pat : String) : String :=
  String.mk (replaceAux pat.data s.data.length s.data)

namespace RedSparqlTransformer

/-- The body of `categorize` for one node: when `category` is absent and
`type` is present, set `category` to
`un_camel_case(data['type'].replace('biolink:', ''))`; `un` stands for the
external helper `un_camel_case` (kgx.utils.kgx_utils, outside this module). -/
def categorizeNode (un : String → String) (nd : String × List (String × String)) :
    String × List (String × String) :=
  if !hasKey nd.2 "category" && hasKey nd.2 "type" then
    (nd.1, nd.2 ++ [("category", un (pyReplace (getVal nd.2 "type") "biolink:"))])
  else nd

/-- `RedSparqlTransformer.categorize`: one pass over all nodes. -/
def categorize (un : String → String) (g : Graph) : Graph :=
  { g with nodes := g.nodes.map (categorizeNode un) }

end RedSparqlTransformer

/-- If a node is present, update its attribute map in place, else append it
with the given attribute — last-write-wins on repeated keys.
Modelled from the spec: the Graph Mutator `add_node_attribute` of
RdfGraphMixin, which is not under src/; the spec describes a node as a
mutable mapping from attribute key to attribute value, last-write-wins. -/
def applyAddNodeAttr (g : Graph) (n k v : String) : Graph :=
  { g with nodes := RedSparqlTransformer.setNodeAttr g.nodes n k v }

/-- Ensure a node exists with an empty attribute map. -/
def ensureNode (nodes : List (String × List (String × String))) (n : String) :
    List (String × List (String × String)) :=
  if nodes.any (fun q => q.1 == n) then nodes else nodes ++ [(n, [])]

/-- Append a labeled directed edge, creating its endpoint nodes.
Modelled from the spec: the Graph Mutator `add_edge(subject, object,
predicate)` of RdfGraphMixin, which is not under src/; the spec describes an
edge as (subject id, object id, predicate id) with multigraph semantics. -/
def applyAddEdge (g : Graph) (s o p : String) : Graph :=
  { nodes := ensureNode (ensureNode g.nodes s) o, edges := g.edges ++ [(s, o, p)] }

/-- Interpret a trace of mutator calls on a graph; query and categorize
events do not touch the graph here. -/
def applyEvent (g : Graph) : Event → Graph
  | Event.addNodeAttr n k v => applyAddNodeAttr g n k v
  | Event.addEdge s o p => applyAddEdge g s o p
  | _ => g

/-- Run a whole trace of mutator calls on a graph. -/
def applyEvents (g : Graph) (t : List Event) : Graph := t.foldl applyEvent g

/-- The empty graph a fetch starts from. -/
def startGraph : Graph := { nodes := [], edges := [] }

/-- The prefix of a list up to and including the first element strictly
greater than `l` — the loop values consumed by a loop that breaks after the
iteration whose value exceeds `l`. -/
def takeUntilGT (l : Nat) : List Nat → List Nat
  | [] => []
  | i :: rest => if l < i then [i] else i :: takeUntilGT l rest

/-- An endpoint with a constant count, a constant edge page and constant
node-property results, used for concrete runs. -/
def constEndpoint (c : Nat) (page : List Binding) (props : List Binding) : Endpoint :=
  { count := fun _ => c, edgePage := fun _ _ _ => page, nodeProps := fun _ => props }

/-- A generic endpoint with constant results, used for concrete runs. -/
def constGenEndpoint (bs : List Binding) : GenEndpoint := { results := fun _ => bs }

section Lemmas
open RedSparqlTransformer

theorem mem_flushDict {d : List (String × List (String × String))} {e : Event}
    (h : e ∈ flushDict d) : ∃ n k v, e = Event.addNodeAttr n k v := by
  unfold flushDict at h
  rw [List.mem_flatMap] at h
  obtain ⟨p, _, he⟩ := h
  rw [List.mem_map] at he
  obtain ⟨q, _, rfl⟩ := he
  exact ⟨p.1, q.1, q.2, rfl⟩

theorem mem_load_nodes {ep : Endpoint} {xs : List String} {e : Event}
    (h : e ∈ load_nodes ep xs) :
    (∃ ns, e = Event.nodeQuery ns) ∨ ∃ n k v, e = Event.addNodeAttr n k v := by
  unfold load_nodes at h
  rw [List.mem_flatMap] at h
  obtain ⟨c, _, hc⟩ := h
  simp only [processNodeChunk, List.mem_cons] at hc
  rcases hc with rfl | hc
  · exact Or.inl ⟨_, rfl⟩
  · exact Or.inr (mem_flushDict hc)

theorem edgeQueries_load_nodes (ep : Endpoint) (xs : List String) :
    edgeQueries (load_nodes ep xs) = [] := by
  unfold edgeQueries
  rw [List.filterMap_eq_nil_iff]
  intro e he
  rcases mem_load_nodes he with ⟨ns, rfl⟩ | ⟨n, k, v, rfl⟩ <;> rfl

theorem addEdges_load_nodes (ep : Endpoint) (xs : List String) :
    addEdges (load_nodes ep xs) = [] := by
  unfold addEdges
  rw [List.filterMap_eq_nil_iff]
  intro e he
  rcases mem_load_nodes he with ⟨ns, rfl⟩ | ⟨n, k, v, rfl⟩ <;> rfl

theorem edgeQueries_map_addEdge (bs : List Binding) :
    edgeQueries (bs.map fun r => Event.addEdge r.subject r.object r.predicate) = [] := by
  unfold edgeQueries
  rw [List.filterMap_map, List.filterMap_eq_nil_iff]
  intro r _
  rfl

theorem edgeQueries_processPage (ep : Endpoint) (a : String) (start step : Nat) :
    edgeQueries (processPage ep a start step) = [(a, start, step)] := by
  have h1 := edgeQueries_load_nodes ep (collectNodes (ep.edgePage a start step))
  have h2 := edgeQueries_map_addEdge (ep.edgePage a start step)
  unfold edgeQueries at h1 h2 ⊢
  simp only [processPage, List.filterMap_cons, List.filterMap_append, toEdgeQuery, h1, h2,
    List.append_nil]

theorem addEdges_map_addEdge (bs : List Binding) :
    addEdges (bs.map fun r => Event.addEdge r.subject r.object r.predicate) =
      bs.map fun r => (r.subject, r.object, r.predicate) := by
  unfold addEdges
  rw [List.filterMap_map]
  exact congrFun (List.filterMap_eq_map fun r : Binding => (r.subject, r.object, r.predicate)) bs

theorem addEdges_processPage (ep : Endpoint) (a : String) (start step : Nat) :
    addEdges (processPage ep a start step) =
      (ep.edgePage a start step).map fun r => (r.subject, r.object, r.predicate) := by
  have h1 := addEdges_load_nodes ep (collectNodes (ep.edgePage a start step))
  have h2 := addEdges_map_addEdge (ep.edgePage a start step)
  unfold addEdges at h1 h2 ⊢
  simp only [processPage, List.filterMap_cons, List.filterMap_append, toAddEdge, h1, h2,
    List.nil_append]

theorem pageEnds_eq (c : Nat) : pageEnds c = List.range' 1000 ((c + 999) / 1000) 1000 := by
  unfold pageEnds pythonRange
  have h : c + 1000 - 1000 + 1000 - 1 = c + 999 := by omega
  rw [h]

theorem processPages_cons_none (ep : Endpoint) (a : String) (step i start : Nat)
    (rest : List Nat) :
    processPages ep a none step (i :: rest) start =
      processPage ep a start step ++ processPages ep a none step rest i := rfl

theorem processPages_cons_some (ep : Endpoint) (a : String) (l step i start : Nat)
    (rest : List Nat) :
    processPages ep a (some l) step (i :: rest) start =
      processPage ep a start step ++
        (if l < i then [] else processPages ep a (some l) step rest i) := rfl

theorem edgeQueries_processPages_none (ep : Endpoint) (a : String) (step : Nat) :
    ∀ (n s start : Nat),
      edgeQueries (processPages ep a none step (List.range' s (n + 1) step) start) =
        ((start :: List.range' s n step).map fun off => (a, off, step)) := by
  intro n
  induction n with
  | zero =>
    intro s start
    have h1 := edgeQueries_processPage ep a start step
    unfold edgeQueries at h1 ⊢
    rw [List.range'_succ, processPages_cons_none, List.filterMap_append, h1]
    rfl
  | succ m ih =>
    intro s start
    rw [List.range'_succ]
    have h1 := edgeQueries_processPage ep a start step
    have h2 := ih (s + step) s
    unfold edgeQueries at h1 h2 ⊢
    rw [processPages_cons_none, List.filterMap_append, h1, h2]
    rw [List.range'_succ]
    rfl

theorem edgeQueries_load_single_none (ep : Endpoint) (p : String) :
    edgeQueries (RedSparqlTransformer.load_networkx_graph ep [p] none) =
      (List.range' 0 ((ep.count (wrapIri p) + 999) / 1000) 1000).map
        fun off => (wrapIri p, off, 1000) := by
  unfold RedSparqlTransformer.load_networkx_graph perPredicate
  simp only [List.flatMap_cons, List.flatMap_nil, List.append_nil, pageEnds_eq]
  rcases hm : (ep.count (wrapIri p) + 999) / 1000 with _ | m
  · rfl
  · have h := edgeQueries_processPages_none ep (wrapIri p) 1000 m 1000 0
    unfold edgeQueries at h ⊢
    simp only [List.filterMap_append, List.filterMap_cons, toEdgeQuery, h]
    rw [List.range'_succ]
    simp

theorem length_edgeQueries_processPages_some (ep : Endpoint) (a : String) (l step : Nat) :
    ∀ (pages : List Nat) (start : Nat),
      (edgeQueries (processPages ep a (some l) step pages start)).length =
        (takeUntilGT l pages).length := by
  intro pages
  induction pages with
  | nil => intro start; rfl
  | cons i rest ih =>
    intro start
    have h1 := edgeQueries_processPage ep a start step
    unfold edgeQueries at h1 ⊢
    by_cases h : l < i
    · simp only [processPages_cons_some, takeUntilGT, if_pos h, List.filterMap_append, h1]
      rfl
    · have h2 := ih i
      unfold edgeQueries at h2
      simp only [processPages_cons_some, takeUntilGT, if_neg h, List.filterMap_append, h1,
        List.length_append, List.length_cons, List.length_nil, h2]
      omega

theorem takeUntilGT_range'_length (l S : Nat) (hS : 0 < S) :
    ∀ (n s : Nat),
      (takeUntilGT l (List.range' s n S)).length =
        min n (if l < s then 1 else (l - s) / S + 2) := by
  intro n
  induction n with
  | zero => intro s; simp [takeUntilGT]
  | succ m ih =>
    intro s
    rw [List.range'_succ]
    by_cases h : l < s
    · simp only [takeUntilGT, if_pos h, List.length_cons, List.length_nil]
      omega
    · simp only [takeUntilGT, if_neg h]
      rw [List.length_cons, ih (s + S)]
      by_cases h2 : l < s + S
      · have hd : (l - s) / S = 0 := Nat.div_eq_of_lt (by omega)
        simp only [if_pos h2, if_neg h, hd]
        omega
      · have hd : (l - s) / S = (l - s - S) / S + 1 := by
          rw [Nat.div_eq_sub_div hS (by omega)]
        have he : l - s - S = l - (s + S) := by omega
        simp only [if_neg h2, if_neg h, hd, he]
        omega

theorem padChunk_filterMap (n : Nat) (xs : List String) :
    (padChunk n xs).filterMap id = xs := by
  simp [padChunk]

theorem chunkPadAux_length (n : Nat) (hn : 0 < n) :
    ∀ (fuel : Nat) (xs : List String), xs.length ≤ fuel →
      (chunkPadAux n fuel xs).length = (xs.length + n - 1) / n := by
  intro fuel
  induction fuel with
  | zero =>
    intro xs hx
    have hxnil : xs = [] := List.length_eq_zero.mp (by omega)
    subst hxnil
    rw [show chunkPadAux n 0 [] = [] from rfl]
    simp only [List.length_nil]
    exact (Nat.div_eq_of_lt (by omega)).symm
  | succ f ih =>
    intro xs hx
    match xs with
    | [] =>
      rw [show chunkPadAux n (f + 1) [] = [] from rfl]
      simp only [List.length_nil]
      exact (Nat.div_eq_of_lt (by omega)).symm
    | x :: t =>
      have hpos : 0 < (x :: t).length := by simp
      rw [show chunkPadAux n (f + 1) (x :: t) =
        padChunk n ((x :: t).take n) :: chunkPadAux n f ((x :: t).drop n) from rfl]
      rw [List.length_cons, ih ((x :: t).drop n)
        (by rw [List.length_drop]; simp only [List.length_cons] at hx ⊢; omega)]
      rw [List.length_drop]
      rcases Nat.lt_or_ge (x :: t).length n with hlt | hge
      · have h0 : (x :: t).length - n = 0 := by omega
        rw [h0]
        have h1 : (0 + n - 1) / n = 0 := Nat.div_eq_of_lt (by omega)
        rw [h1]
        have h4 : ((x :: t).length + n - 1) / n = 1 := by
          apply Nat.div_eq_of_lt_le (by omega) (by omega)
        rw [h4]
      · have h2 : ((x :: t).length + n - 1) / n = ((x :: t).length + n - 1 - n) / n + 1 :=
          Nat.div_eq_sub_div hn (by omega)
        rw [h2]
        have h3 : (x :: t).length + n - 1 - n = (x :: t).length - n + n - 1 := by omega
        rw [h3]

theorem grouper_length (xs : List String) :
    (_grouper xs 10000).length = (xs.length + 9999) / 10000 := by
  unfold _grouper
  rw [if_neg (by omega)]
  exact chunkPadAux_length 10000 (by omega) xs.length xs (Nat.le_refl _)

theorem mem_chunkPadAux_sublist (n : Nat) :
    ∀ (fuel : Nat) (xs : List String) (c : List (Option String)),
      c ∈ chunkPadAux n fuel xs → List.Sublist (c.filterMap id) xs := by
  intro fuel
  induction fuel with
  | zero =>
    intro xs c hc
    match xs with
    | [] => exact absurd hc (List.not_mem_nil c)
    | x :: t => exact absurd hc (List.not_mem_nil c)
  | succ f ih =>
    intro xs c hc
    match xs with
    | [] => exact absurd hc (List.not_mem_nil c)
    | x :: t =>
      rw [show chunkPadAux n (f + 1) (x :: t) =
        padChunk n ((x :: t).take n) :: chunkPadAux n f ((x :: t).drop n) from rfl,
        List.mem_cons] at hc
      rcases hc with rfl | hc
      · rw [padChunk_filterMap]
        exact List.take_sublist n (x :: t)
      · exact (ih ((x :: t).drop n) c hc).trans (List.drop_sublist n (x :: t))

theorem mem_grouper_sublist {xs : List String} {k : Nat} {c : List (Option String)}
    (hc : c ∈ _grouper xs k) : List.Sublist (c.filterMap id) xs := by
  unfold _grouper at hc
  by_cases hk : k = 0
  · rw [if_pos hk] at hc
    exact absurd hc (List.not_mem_nil c)
  · rw [if_neg hk] at hc
    exact mem_chunkPadAux_sublist k xs.length xs c hc

theorem chunkIds_sublist {xs : List String} {k : Nat} {c : List (Option String)}
    (hc : c ∈ _grouper xs k) : List.Sublist (chunkIds c) xs :=
  (List.filter_sublist (c.filterMap id)).trans (mem_grouper_sublist hc)

theorem insertNew_nodup {xs : List String} (x : String) (h : xs.Nodup) :
    (insertNew xs x).Nodup := by
  unfold insertNew
  by_cases hx : x ∈ xs
  · rw [if_pos hx]
    exact h
  · rw [if_neg hx]
    simp [List.nodup_append, h, hx]

theorem collectNodes_nodup (bs : List Binding) : (collectNodes bs).Nodup := by
  unfold collectNodes
  have h : ∀ (l : List Binding) (acc : List String), acc.Nodup →
      (l.foldl (fun acc r => insertNew (insertNew acc (wrapIri r.subject)) (wrapIri r.object)) acc).Nodup := by
    intro l
    induction l with
    | nil => intro acc h; exact h
    | cons r t ih =>
      intro acc hacc
      exact ih _ (insertNew_nodup _ (insertNew_nodup _ hacc))
  exact h bs [] List.nodup_nil

theorem nodeQueries_flushDict (d : List (String × List (String × String))) :
    nodeQueries (flushDict d) = [] := by
  unfold nodeQueries
  rw [List.filterMap_eq_nil_iff]
  intro e he
  obtain ⟨n, k, v, rfl⟩ := mem_flushDict he
  rfl

theorem nodeQueries_processNodeChunk (ep : Endpoint) (c : List (Option String)) :
    nodeQueries (processNodeChunk ep c) = [chunkIds c] := by
  have h1 := nodeQueries_flushDict ((ep.nodeProps (chunkIds c)).foldl recordBinding [])
  unfold nodeQueries at h1 ⊢
  simp only [processNodeChunk, List.filterMap_cons, toNodeQuery, h1]

theorem nodeQueries_load_nodes (ep : Endpoint) (xs : List String) :
    nodeQueries (load_nodes ep xs) = (_grouper xs 10000).map chunkIds := by
  unfold load_nodes
  induction _grouper xs 10000 with
  | nil => rfl
  | cons c cs ih =>
    have h1 := nodeQueries_processNodeChunk ep c
    unfold nodeQueries at h1 ih ⊢
    rw [List.flatMap_cons, List.filterMap_append, h1, ih, List.map_cons]
    rfl

theorem nodeQuery_mem_load_nodes {ep : Endpoint} {xs : List String} {q : List String}
    (h : Event.nodeQuery q ∈ load_nodes ep xs) :
    ∃ c ∈ _grouper xs 10000, q = chunkIds c := by
  unfold load_nodes at h
  rw [List.mem_flatMap] at h
  obtain ⟨c, hc, he⟩ := h
  simp only [processNodeChunk, List.mem_cons] at he
  rcases he with he | he
  · exact ⟨c, hc, by injection he⟩
  · obtain ⟨n, k, v, hv⟩ := mem_flushDict he
    exact absurd hv (by simp)

theorem mem_processPages {ep : Endpoint} {a : String} {lim : Option Nat} {step : Nat} :
    ∀ {pages : List Nat} {start : Nat} {e : Event},
      e ∈ processPages ep a lim step pages start → ∃ st, e ∈ processPage ep a st step := by
  intro pages
  induction pages with
  | nil =>
    intro start e h
    exact absurd h (List.not_mem_nil e)
  | cons i rest ih =>
    intro start e h
    cases lim with
    | none =>
      rw [processPages_cons_none, List.mem_append] at h
      rcases h with h | h
      · exact ⟨start, h⟩
      · exact ih h
    | some l =>
      rw [processPages_cons_some, List.mem_append] at h
      rcases h with h | h
      · exact ⟨start, h⟩
      · by_cases hl : l < i
        · rw [if_pos hl] at h
          exact absurd h (List.not_mem_nil e)
        · rw [if_neg hl] at h
          exact ih h

theorem nodeQuery_mem_processPage {ep : Endpoint} {a : String} {st step : Nat} {q : List String}
    (h : Event.nodeQuery q ∈ processPage ep a st step) :
    Event.nodeQuery q ∈ load_nodes ep (collectNodes (ep.edgePage a st step)) := by
  simp only [processPage, List.mem_cons, List.mem_append] at h
  rcases h with h | h | h
  · exact absurd h (by simp)
  · exact h
  · rw [List.mem_map] at h
    obtain ⟨r, _, hr⟩ := h
    exact absurd hr (by simp)

theorem nodeQuery_mem_load {ep : Endpoint} {preds : List String} {lim : Option Nat}
    {q : List String}
    (h : Event.nodeQuery q ∈ RedSparqlTransformer.load_networkx_graph ep preds lim) :
    ∃ bs, ∃ c ∈ _grouper (collectNodes bs) 10000, q = chunkIds c := by
  unfold RedSparqlTransformer.load_networkx_graph at h
  rw [List.mem_append, List.mem_flatMap] at h
  rcases h with ⟨p, _, hp⟩ | h
  · unfold perPredicate at hp
    rw [List.mem_cons] at hp
    rcases hp with hp | hp
    · exact absurd hp (by simp)
    · obtain ⟨st, hst⟩ := mem_processPages hp
      obtain ⟨c, hc, rfl⟩ := nodeQuery_mem_load_nodes (nodeQuery_mem_processPage hst)
      exact ⟨ep.edgePage (wrapIri p) st 1000, c, hc, rfl⟩
  · simp at h

theorem mem_nodeQueries {t : List Event} {q : List String} (h : q ∈ nodeQueries t) :
    Event.nodeQuery q ∈ t := by
  unfold nodeQueries at h
  rw [List.mem_filterMap] at h
  obtain ⟨e, he, hq⟩ := h
  cases e <;> simp only [toNodeQuery] at hq <;> first
    | (cases hq; exact he)
    | exact absurd hq (by simp)

theorem processedBindings_cons_none (ep : Endpoint) (a : String) (step i start : Nat)
    (rest : List Nat) :
    processedBindings ep a none step (i :: rest) start =
      ep.edgePage a start step ++ processedBindings ep a none step rest i := rfl

theorem processedBindings_cons_some (ep : Endpoint) (a : String) (l step i start : Nat)
    (rest : List Nat) :
    processedBindings ep a (some l) step (i :: rest) start =
      ep.edgePage a start step ++
        (if l < i then [] else processedBindings ep a (some l) step rest i) := rfl

theorem addEdges_processPages (ep : Endpoint) (a : String) (lim : Option Nat) (step : Nat) :
    ∀ (pages : List Nat) (start : Nat),
      addEdges (processPages ep a lim step pages start) =
        (processedBindings ep a lim step pages start).map
          fun r => (r.subject, r.object, r.predicate) := by
  intro pages
  induction pages with
  | nil => intro start; cases lim <;> rfl
  | cons i rest ih =>
    intro start
    have h1 := addEdges_processPage ep a start step
    unfold addEdges at h1 ih ⊢
    cases lim with
    | none =>
      rw [processPages_cons_none, processedBindings_cons_none, List.filterMap_append, h1, ih,
        List.map_append]
    | some l =>
      rw [processPages_cons_some, processedBindings_cons_some, List.filterMap_append, h1,
        List.map_append]
      by_cases hl : l < i
      · rw [if_pos hl, if_pos hl]
        rfl
      · rw [if_neg hl, if_neg hl, ih]

theorem addEdges_load (ep : Endpoint) (preds : List String) (lim : Option Nat) :
    addEdges (RedSparqlTransformer.load_networkx_graph ep preds lim) =
      (preds.flatMap fun p =>
        processedBindings ep (wrapIri p) lim 1000 (pageEnds (ep.count (wrapIri p))) 0).map
          fun r => (r.subject, r.object, r.predicate) := by
  unfold RedSparqlTransformer.load_networkx_graph
  unfold addEdges
  rw [List.filterMap_append]
  have hc : List.filterMap toAddEdge [Event.categorizeCall] = [] := rfl
  rw [hc, List.append_nil]
  induction preds with
  | nil => rfl
  | cons p ps ih =>
    rw [List.flatMap_cons, List.flatMap_cons, List.filterMap_append, List.map_append, ih]
    have h2 := addEdges_processPages ep (wrapIri p) lim 1000
      (pageEnds (ep.count (wrapIri p))) 0
    unfold addEdges at h2
    simp only [perPredicate, List.filterMap_cons, toAddEdge, h2]

theorem recordBinding_bnode {r : Binding} (h : r.objectType = "bnode")
    (d : List (String × List (String × String))) : recordBinding d r = d := by
  unfold recordBinding
  rw [if_neg (fun hc => hc h)]

theorem foldl_recordBinding_filter (bs : List Binding) :
    ∀ d, bs.foldl recordBinding d =
      (bs.filter fun r => r.objectType != "bnode").foldl recordBinding d := by
  induction bs with
  | nil => intro d; rfl
  | cons r t ih =>
    intro d
    rw [List.foldl_cons, List.filter_cons]
    by_cases h : r.objectType = "bnode"
    · rw [recordBinding_bnode h, if_neg (by simp [h]), ih]
    · rw [if_pos (by simp [h]), List.foldl_cons, ih]

theorem foldl_recordBinding_all_bnode {bs : List Binding}
    (h : ∀ r ∈ bs, r.objectType = "bnode") :
    ∀ d, bs.foldl recordBinding d = d := by
  induction bs with
  | nil => intro d; rfl
  | cons r t ih =>
    intro d
    rw [List.foldl_cons, recordBinding_bnode (h r (List.mem_cons_self r t)) d]
    exact ih (fun x hx => h x (List.mem_cons_of_mem r hx)) d

theorem addNodeAttrs_load_nodes_all_bnode (ep : Endpoint) (ids : List String)
    (h : ∀ (ns : List String) (r : Binding), r ∈ ep.nodeProps ns → r.objectType = "bnode") :
    addNodeAttrs (load_nodes ep ids) = [] := by
  unfold load_nodes
  unfold addNodeAttrs
  rw [List.filterMap_eq_nil_iff]
  intro e he
  rw [List.mem_flatMap] at he
  obtain ⟨c, _, hc⟩ := he
  simp only [processNodeChunk, List.mem_cons] at hc
  rcases hc with rfl | hc
  · rfl
  · rw [foldl_recordBinding_all_bnode (h (chunkIds c)) []] at hc
    exact absurd hc (List.not_mem_nil e)

theorem hasKey_append_self (attrs : List (String × String)) (k v : String) :
    hasKey (attrs ++ [(k, v)]) k = true := by
  simp [hasKey, List.any_append]

theorem categorizeNode_hasKey_category {un : String → String}
    {nd : String × List (String × String)} (h : hasKey nd.2 "category" = true) :
    categorizeNode un nd = nd := by
  unfold categorizeNode
  rw [if_neg]
  simp [h]

theorem categorizeNode_idem (un : String → String) (nd : String × List (String × String)) :
    categorizeNode un (categorizeNode un nd) = categorizeNode un nd := by
  by_cases h : (!hasKey nd.2 "category" && hasKey nd.2 "type") = true
  · have h1 : categorizeNode un nd =
        (nd.1, nd.2 ++ [("category", un (pyReplace (getVal nd.2 "type") "biolink:"))]) := by
      unfold categorizeNode
      rw [if_pos h]
    rw [h1]
    exact categorizeNode_hasKey_category (hasKey_append_self nd.2 "category" _)
  · have h1 : categorizeNode un nd = nd := by
      unfold categorizeNode
      rw [if_neg h]
    rw [h1, h1]

theorem addNodeAttrs_gen_rows (bs : List Binding) :
    addNodeAttrs (bs.flatMap fun r =>
        if r.objectType = "literal" then [Event.addNodeAttr r.subject r.predicate r.object]
        else [Event.addEdge r.subject r.object r.predicate]) =
      (bs.filter fun r => r.objectType == "literal").map
        fun r => (r.subject, r.predicate, r.object) := by
  unfold addNodeAttrs
  induction bs with
  | nil => rfl
  | cons r t ih =>
    rw [List.flatMap_cons, List.filterMap_append, ih, List.filter_cons]
    by_cases h : r.objectType = "literal"
    · rw [if_pos h, if_pos (by simp [h])]
      rfl
    · rw [if_neg h, if_neg (by simp [h])]
      rfl

theorem addEdges_gen_rows (bs : List Binding) :
    addEdges (bs.flatMap fun r =>
        if r.objectType = "literal" then [Event.addNodeAttr r.subject r.predicate r.object]
        else [Event.addEdge r.subject r.object r.predicate]) =
      (bs.filter fun r => !(r.objectType == "literal")).map
        fun r => (r.subject, r.object, r.predicate) := by
  unfold addEdges
  induction bs with
  | nil => rfl
  | cons r t ih =>
    rw [List.flatMap_cons, List.filterMap_append, ih, List.filter_cons]
    by_cases h : r.objectType = "literal"
    · rw [if_pos h, if_neg (by simp [h])]
      rfl
    · rw [if_neg h, if_pos (by simp [h])]
      rfl

theorem addNodeAttrs_gen_load (ep : GenEndpoint) (preds : List String) :
    addNodeAttrs (SparqlTransformer.load_networkx_graph ep preds) =
      ((preds.flatMap fun p => ep.results (wrapIri p)).filter
          fun r => r.objectType == "literal").map
        fun r => (r.subject, r.predicate, r.object) := by
  unfold SparqlTransformer.load_networkx_graph
  induction preds with
  | nil => rfl
  | cons p ps ih =>
    unfold addNodeAttrs at ih ⊢
    rw [List.flatMap_cons, List.flatMap_cons, List.filterMap_append, ih,
      List.filter_append, List.map_append]
    have h := addNodeAttrs_gen_rows (ep.results (wrapIri p))
    unfold addNodeAttrs at h
    rw [h]

theorem addEdges_gen_load (ep : GenEndpoint) (preds : List String) :
    addEdges (SparqlTransformer.load_networkx_graph ep preds) =
      ((preds.flatMap fun p => ep.results (wrapIri p)).filter
          fun r => !(r.objectType == "literal")).map
        fun r => (r.subject, r.object, r.predicate) := by
  unfold SparqlTransformer.load_networkx_graph
  induction preds with
  | nil => rfl
  | cons p ps ih =>
    unfold addEdges at ih ⊢
    rw [List.flatMap_cons, List.flatMap_cons, List.filterMap_append, ih,
      List.filter_append, List.map_append]
    have h := addEdges_gen_rows (ep.results (wrapIri p))
    unfold addEdges at h
    rw [h]

theorem nodeQueries_nil : nodeQueries [] = [] := rfl

theorem nodeQueries_append (l1 l2 : List Event) :
    nodeQueries (l1 ++ l2) = nodeQueries l1 ++ nodeQueries l2 :=
  List.filterMap_append l1 l2 toNodeQuery

theorem nodeQueries_cons_countQuery (s : String) (t : List Event) :
    nodeQueries (Event.countQuery s :: t) = nodeQueries t :=
  List.filterMap_cons_none rfl

theorem nodeQueries_cons_categorize (t : List Event) :
    nodeQueries (Event.categorizeCall :: t) = nodeQueries t :=
  List.filterMap_cons_none rfl

theorem chunkIds_padChunk (n : Nat) (xs : List String) :
    chunkIds (padChunk n xs) = xs.filter (fun s => s != "") := by
  unfold chunkIds
  rw [padChunk_filterMap]

theorem chunkPadAux_nil (n : Nat) : ∀ f : Nat, chunkPadAux n f [] = [] := by
  intro f
  cases f <;> rfl

theorem grouper_small {xs : List String} {n : Nat} (h1 : xs ≠ []) (h2 : xs.length ≤ n)
    (h3 : n ≠ 0) : _grouper xs n = [padChunk n xs] := by
  unfold _grouper
  rw [if_neg h3]
  match xs, h1 with
  | x :: t, _ =>
    rw [show chunkPadAux n (x :: t).length (x :: t) =
      padChunk n ((x :: t).take n) :: chunkPadAux n t.length ((x :: t).drop n) from rfl]
    rw [List.take_of_length_le h2, List.drop_eq_nil_of_le h2, chunkPadAux_nil]

theorem nodeQueries_load_nodes_small (ep : Endpoint) {xs : List String}
    (h1 : xs ≠ []) (h2 : xs.length ≤ 10000) :
    nodeQueries (load_nodes ep xs) = [xs.filter (fun s => s != "")] := by
  rw [nodeQueries_load_nodes, grouper_small h1 h2 (by omega), List.map_singleton,
    chunkIds_padChunk]

theorem nodeQueries_processPage_eq (ep : Endpoint) (a : String) (start step : Nat) :
    nodeQueries (processPage ep a start step) =
      nodeQueries (load_nodes ep (collectNodes (ep.edgePage a start step))) := by
  have h1 : nodeQueries ((ep.edgePage a start step).map
      fun r => Event.addEdge r.subject r.object r.predicate) = [] := by
    unfold nodeQueries
    rw [List.filterMap_map, List.filterMap_eq_nil_iff]
    intro r _
    rfl
  unfold nodeQueries at h1 ⊢
  simp only [processPage, List.filterMap_cons, toNodeQuery, List.filterMap_append, h1,
    List.append_nil]

theorem c3_trace_nodeQueries :
    nodeQueries (RedSparqlTransformer.load_networkx_graph
        (constEndpoint 2000
          [{ subject := "A", predicate := "p", object := "B", objectType := "uri" }] [])
        ["p"] none) =
      [["<A>", "<B>"], ["<A>", "<B>"]] := by
  have hsmall : ∀ start : Nat,
      nodeQueries (load_nodes
        (constEndpoint 2000
          [{ subject := "A", predicate := "p", object := "B", objectType := "uri" }] [])
        (collectNodes ((constEndpoint 2000
          [{ subject := "A", predicate := "p", object := "B", objectType := "uri" }] []).edgePage
            (wrapIri "p") start 1000))) = [["<A>", "<B>"]] := by
    intro start
    have hep : (constEndpoint 2000
        [{ subject := "A", predicate := "p", object := "B", objectType := "uri" }] []).edgePage
          (wrapIri "p") start 1000 =
        [{ subject := "A", predicate := "p", object := "B", objectType := "uri" }] := rfl
    rw [hep, nodeQueries_load_nodes_small _ (by decide) (by decide)]
    decide
  unfold RedSparqlTransformer.load_networkx_graph perPredicate
  rw [List.flatMap_cons, List.flatMap_nil, List.append_nil]
  rw [show pageEnds ((constEndpoint 2000
      [{ subject := "A", predicate := "p", object := "B", objectType := "uri" }] []).count
        (wrapIri "p")) = [1000, 2000] from by rw [pageEnds_eq]; decide]
  rw [processPages_cons_none, processPages_cons_none,
    show processPages (constEndpoint 2000
      [{ subject := "A", predicate := "p", object := "B", objectType := "uri" }] [])
      (wrapIri "p") none 1000 [] 2000 = [] from rfl]
  simp only [nodeQueries_append, nodeQueries_cons_countQuery, nodeQueries_cons_categorize,
    nodeQueries_nil, nodeQueries_processPage_eq, hsmall, List.append_nil]
  rfl

end Lemmas

section Claims
open RedSparqlTransformer

/-- C1: for the association-scoped pagination driver with step size 1000, when
the count query reports 2500, exactly 3 windowed edge queries are issued, at
offsets 0, 1000 and 2000 with limit 1000 each, regardless of what the pages
return; when the count query reports 0, no edge-page query is issued. -/
theorem c1_pagination_windows (ep : Endpoint) (p : String) :
    (ep.count (wrapIri p) = 2500 →
      edgeQueries (RedSparqlTransformer.load_networkx_graph ep [p] none) =
        [(wrapIri p, 0, 1000), (wrapIri p, 1000, 1000), (wrapIri p, 2000, 1000)]) ∧
    (ep.count (wrapIri p) = 0 →
      edgeQueries (RedSparqlTransformer.load_networkx_graph ep [p] none) = []) := by
  constructor
  · intro h
    rw [edgeQueries_load_single_none, h]
    rfl
  · intro h
    rw [edgeQueries_load_single_none, h]
    rfl

/-- Witness for C1 at two concrete endpoints, one reporting 2500 and one
reporting 0. -/
theorem c1_pagination_windows_witness :
    (constEndpoint 2500 [] []).count (wrapIri "p") = 2500 ∧
    edgeQueries (RedSparqlTransformer.load_networkx_graph (constEndpoint 2500 [] []) ["p"] none) =
      [(wrapIri "p", 0, 1000), (wrapIri "p", 1000, 1000), (wrapIri "p", 2000, 1000)] ∧
    (constEndpoint 0 [] []).count (wrapIri "p") = 0 ∧
    edgeQueries (RedSparqlTransformer.load_networkx_graph (constEndpoint 0 [] []) ["p"] none) =
      [] :=
  ⟨rfl, (c1_pagination_windows (constEndpoint 2500 [] []) "p").1 rfl, rfl,
    (c1_pagination_windows (constEndpoint 0 [] []) "p").2 rfl⟩

/-- C4 counterexample: with reported count 2000 — an exact multiple of the
step 1000 — the driver issues pages at offsets 0 and 1000 only; no page is
issued at offset 2000 = count, refuting the claim that a page is issued at
every offset j*1000 with j*1000 ≤ count. -/
theorem c4_counterexample :
    edgeQueries (RedSparqlTransformer.load_networkx_graph (constEndpoint 2000 [] []) ["p"] none) =
      [(wrapIri "p", 0, 1000), (wrapIri "p", 1000, 1000)] ∧
    (wrapIri "p", 2000, 1000) ∉
      edgeQueries
        (RedSparqlTransformer.load_networkx_graph (constEndpoint 2000 [] []) ["p"] none) := by
  decide

/-- C4 amended: the loop runs ceil(count/1000) iterations, issuing edge pages
at exactly the offsets j*1000 with j*1000 strictly below the reported count,
in increasing order; when the count is an exact multiple of 1000, no page is
issued at offset equal to the count. -/
theorem c4_amended_offsets (ep : Endpoint) (p : String) :
    edgeQueries (RedSparqlTransformer.load_networkx_graph ep [p] none) =
      (List.range' 0 ((ep.count (wrapIri p) + 999) / 1000) 1000).map
        (fun off => (wrapIri p, off, 1000)) ∧
    ∀ j : Nat,
      ((wrapIri p, j * 1000, 1000) ∈
          edgeQueries (RedSparqlTransformer.load_networkx_graph ep [p] none) ↔
        j * 1000 < ep.count (wrapIri p)) := by
  refine ⟨edgeQueries_load_single_none ep p, ?_⟩
  intro j
  rw [edgeQueries_load_single_none, List.mem_map]
  constructor
  · rintro ⟨off, hoff, heq⟩
    have hoffeq : off = j * 1000 := by
      have := congrArg (fun q => q.2.1) heq
      simpa using this
    subst hoffeq
    rw [List.mem_range'] at hoff
    obtain ⟨i, hi, he⟩ := hoff
    have hji : j = i := by omega
    subst hji
    have h2 : j + 1 ≤ (ep.count (wrapIri p) + 999) / 1000 := hi
    rw [Nat.le_div_iff_mul_le (by omega)] at h2
    omega
  · intro h
    refine ⟨j * 1000, ?_, rfl⟩
    rw [List.mem_range']
    refine ⟨j, ?_, by omega⟩
    rw [Nat.lt_iff_add_one_le, Nat.le_div_iff_mul_le (by omega)]
    omega

/-- C2 counterexample: a single page whose two binding rows carry the same
(subject, predicate, object) triple — as happens when the endpoint returns one
row per edge property — produces two add_edge calls for that one distinct
triple, refuting "none produces more than one add_edge call". -/
theorem c2_counterexample :
    addEdges (RedSparqlTransformer.load_networkx_graph
        (constEndpoint 1
          [{ subject := "S", predicate := "P", object := "O", objectType := "uri" },
           { subject := "S", predicate := "P", object := "O", objectType := "uri" }] [])
        ["p"] none) =
      [("S", "O", "P"), ("S", "O", "P")] := by
  rw [addEdges_load]
  decide

/-- C2 amended: during a fetch, add_edge is called exactly once per returned
binding row, in row order — so a distinct triple returned in k rows produces
k add_edge calls, and exactly one call per distinct triple only when the
returned rows are pairwise distinct as triples. -/
theorem c2_amended_one_call_per_row (ep : Endpoint) (preds : List String) (lim : Option Nat) :
    addEdges (RedSparqlTransformer.load_networkx_graph ep preds lim) =
      (preds.flatMap fun p =>
        processedBindings ep (wrapIri p) lim 1000 (pageEnds (ep.count (wrapIri p))) 0).map
          fun r => (r.subject, r.object, r.predicate) :=
  addEdges_load ep preds lim

/-- C3 counterexample: an endpoint reporting count 2000 serves two pages, both
containing the triple (A, p, B); the identifiers <A> and <B> are included in
the node-attribute query of each page, so a distinct identifier appears in two
node-attribute queries, refuting cross-page deduplication. -/
theorem c3_counterexample :
    nodeQueries (RedSparqlTransformer.load_networkx_graph
        (constEndpoint 2000
          [{ subject := "A", predicate := "p", object := "B", objectType := "uri" }] [])
        ["p"] none) =
      [["<A>", "<B>"], ["<A>", "<B>"]] ∧
    ((nodeQueries (RedSparqlTransformer.load_networkx_graph
        (constEndpoint 2000
          [{ subject := "A", predicate := "p", object := "B", objectType := "uri" }] [])
        ["p"] none)).filter fun q => "<A>" ∈ q).length = 2 := by
  rw [c3_trace_nodeQueries]
  exact ⟨rfl, by decide⟩

/-- C3 amended: deduplication of node identifiers is per page, not across
pages: every node-attribute query issued during a fetch has a duplicate-free
identifier list (the page's subject/object set is deduplicated and chunking
preserves that), but the same identifier may reappear in queries of later
pages. -/
theorem c3_amended_per_page_dedup (ep : Endpoint) (preds : List String) (lim : Option Nat) :
    ∀ q ∈ nodeQueries (RedSparqlTransformer.load_networkx_graph ep preds lim), q.Nodup := by
  intro q hq
  obtain ⟨bs, c, hc, rfl⟩ := nodeQuery_mem_load (mem_nodeQueries hq)
  exact (chunkIds_sublist hc).nodup (collectNodes_nodup bs)

/-- Witness for C3 amended: a concrete fetch whose single node-attribute query
has the duplicate-free list ["<A>", "<B>"]. -/
theorem c3_amended_per_page_dedup_witness :
    (["<A>", "<B>"] ∈ nodeQueries (RedSparqlTransformer.load_networkx_graph
        (constEndpoint 2000
          [{ subject := "A", predicate := "p", object := "B", objectType := "uri" }] [])
        ["p"] none)) ∧
    (["<A>", "<B>"] : List String).Nodup :=
  ⟨by rw [c3_trace_nodeQueries]; decide,
    c3_amended_per_page_dedup
      (constEndpoint 2000
        [{ subject := "A", predicate := "p", object := "B", objectType := "uri" }] [])
      ["p"] none ["<A>", "<B>"] (by rw [c3_trace_nodeQueries]; decide)⟩

/-- C5: the node batcher with chunk size 10000 issues one attribute query per
chunk — ceil(n/10000) queries for n identifiers, so exactly 3 for 25000 — and
every identifier appearing in a query's VALUES list is one of the input
identifiers and never the empty/filler placeholder. -/
theorem c5_chunking_no_filler (ep : Endpoint) (ids : List String) :
    (nodeQueries (load_nodes ep ids)).length = (ids.length + 9999) / 10000 ∧
    (∀ q ∈ nodeQueries (load_nodes ep ids), ∀ x ∈ q, x ∈ ids ∧ x ≠ "") ∧
    (ids.length = 25000 → (nodeQueries (load_nodes ep ids)).length = 3) := by
  have hlen : (nodeQueries (load_nodes ep ids)).length = (ids.length + 9999) / 10000 := by
    rw [nodeQueries_load_nodes, List.length_map, grouper_length]
  refine ⟨hlen, ?_, ?_⟩
  · intro q hq x hx
    rw [nodeQueries_load_nodes, List.mem_map] at hq
    obtain ⟨c, hc, rfl⟩ := hq
    refine ⟨(chunkIds_sublist hc).subset hx, ?_⟩
    have h2 := (List.mem_filter.mp hx).2
    simpa using h2
  · intro h
    rw [hlen, h]

/-- Witness for C5 at a concrete list of 25000 identifiers. -/
theorem c5_chunking_no_filler_witness :
    (List.replicate 25000 "x").length = 25000 ∧
    (nodeQueries (load_nodes (constEndpoint 0 [] []) (List.replicate 25000 "x"))).length = 3 :=
  ⟨by rw [List.length_replicate],
    (c5_chunking_no_filler (constEndpoint 0 [] []) (List.replicate 25000 "x")).2.2
      (by rw [List.length_replicate])⟩

/-- C6: with a caller-supplied limit L, the number of edge pages fetched for a
predicate is min(ceil(count/1000), L/1000 + 1): pagination stops after the
first page whose running loop value i = (page index)*1000 exceeds L, and the
count-exhaustion and limit checks are independent stop conditions — whichever
bound is smaller fires first. -/
theorem c6_limit_stop (ep : Endpoint) (p : String) (L : Nat) :
    (edgeQueries (RedSparqlTransformer.load_networkx_graph ep [p] (some L))).length =
      min ((ep.count (wrapIri p) + 999) / 1000) (L / 1000 + 1) := by
  unfold RedSparqlTransformer.load_networkx_graph perPredicate
  rw [List.flatMap_cons, List.flatMap_nil, List.append_nil]
  unfold edgeQueries
  rw [List.filterMap_append, List.filterMap_cons_none (by rfl :
    toEdgeQuery (Event.countQuery (wrapIri p)) = none)]
  rw [show List.filterMap toEdgeQuery [Event.categorizeCall] = [] from rfl, List.append_nil]
  have h1 := length_edgeQueries_processPages_some ep (wrapIri p) L 1000
    (pageEnds (ep.count (wrapIri p))) 0
  unfold edgeQueries at h1
  rw [h1, pageEnds_eq, takeUntilGT_range'_length L 1000 (by omega)]
  by_cases hL : L < 1000
  · rw [if_pos hL, Nat.div_eq_of_lt hL]
  · rw [if_neg hL]
    have h2 : L / 1000 = (L - 1000) / 1000 + 1 := Nat.div_eq_sub_div (by omega) (by omega)
    rw [h2]

/-- C7: a binding whose object is a blank node never contributes to the
node-attribute accumulator — folding the accumulator over a page's rows
equals folding it over the non-bnode rows only — and a fetch whose
node-property results are all bnode-valued makes no add_node_attribute call
at all. -/
theorem c7_bnode_never_recorded (bs : List Binding) (ep : Endpoint) (ids : List String) :
    (∀ d, bs.foldl recordBinding d =
        (bs.filter fun r => r.objectType != "bnode").foldl recordBinding d) ∧
    ((∀ (ns : List String) (r : Binding), r ∈ ep.nodeProps ns → r.objectType = "bnode") →
      addNodeAttrs (load_nodes ep ids) = []) :=
  ⟨foldl_recordBinding_filter bs, addNodeAttrs_load_nodes_all_bnode ep ids⟩

/-- Witness for C7 at an endpoint whose node-property results are a single
bnode-valued row. -/
theorem c7_bnode_never_recorded_witness :
    (∀ (ns : List String) (r : Binding),
        r ∈ (constEndpoint 0 []
          [{ subject := "S", predicate := "bl:name", object := "B1",
             objectType := "bnode" }]).nodeProps ns → r.objectType = "bnode") ∧
    addNodeAttrs (load_nodes
      (constEndpoint 0 []
        [{ subject := "S", predicate := "bl:name", object := "B1",
           objectType := "bnode" }]) ["<S>"]) = [] := by
  have h : ∀ (ns : List String) (r : Binding),
      r ∈ (constEndpoint 0 []
        [{ subject := "S", predicate := "bl:name", object := "B1",
           objectType := "bnode" }]).nodeProps ns → r.objectType = "bnode" := by
    intro ns r hr
    have hep : (constEndpoint 0 []
        [{ subject := "S", predicate := "bl:name", object := "B1",
           objectType := "bnode" }]).nodeProps ns =
        [{ subject := "S", predicate := "bl:name", object := "B1",
           objectType := "bnode" }] := rfl
    rw [hep, List.mem_singleton] at hr
    rw [hr]
  exact ⟨h, (c7_bnode_never_recorded []
    (constEndpoint 0 []
      [{ subject := "S", predicate := "bl:name", object := "B1",
         objectType := "bnode" }]) ["<S>"]).2 h⟩

/-- C8: in the generic loader, every binding whose object has type literal
yields add_node_attribute(subject, key=predicate, value=object) and no
add_edge, every other binding yields add_edge(subject, object, predicate);
consequently a fetch returning the single literal triple (S, P, "42") builds
a graph with the one node S carrying attribute P = "42" and no edges. -/
theorem c8_literal_routing (ep : GenEndpoint) (preds : List String) :
    addNodeAttrs (SparqlTransformer.load_networkx_graph ep preds) =
      ((preds.flatMap fun p => ep.results (wrapIri p)).filter
          fun r => r.objectType == "literal").map
        (fun r => (r.subject, r.predicate, r.object)) ∧
    addEdges (SparqlTransformer.load_networkx_graph ep preds) =
      ((preds.flatMap fun p => ep.results (wrapIri p)).filter
          fun r => !(r.objectType == "literal")).map
        (fun r => (r.subject, r.object, r.predicate)) ∧
    (ep.results (wrapIri "P") =
        [{ subject := "S", predicate := "P", object := "42", objectType := "literal" }] →
      applyEvents startGraph (SparqlTransformer.load_networkx_graph ep ["P"]) =
        { nodes := [("S", [("P", "42")])], edges := [] }) := by
  refine ⟨addNodeAttrs_gen_load ep preds, addEdges_gen_load ep preds, ?_⟩
  intro h
  unfold SparqlTransformer.load_networkx_graph
  rw [List.flatMap_cons, List.flatMap_nil, List.append_nil, h]
  rfl

/-- Witness for C8 at a concrete single-literal-triple endpoint. -/
theorem c8_literal_routing_witness :
    (constGenEndpoint
        [{ subject := "S", predicate := "P", object := "42",
           objectType := "literal" }]).results (wrapIri "P") =
      [{ subject := "S", predicate := "P", object := "42", objectType := "literal" }] ∧
    applyEvents startGraph (SparqlTransformer.load_networkx_graph
        (constGenEndpoint
          [{ subject := "S", predicate := "P", object := "42",
             objectType := "literal" }]) ["P"]) =
      { nodes := [("S", [("P", "42")])], edges := [] } :=
  ⟨rfl,
    (c8_literal_routing (constGenEndpoint
      [{ subject := "S", predicate := "P", object := "42",
         objectType := "literal" }]) ["P"]).2.2 rfl⟩

/-- C9: categorize is idempotent — a second pass changes nothing because the
first pass left a category on every node it touched — and any node that
already has a category attribute is left entirely unchanged, even when a type
attribute is also present.  The external helper un_camel_case is an arbitrary
function un. -/
theorem c9_categorize_idempotent (un : String → String) :
    (∀ g : Graph, categorize un (categorize un g) = categorize un g) ∧
    (∀ (n : String) (attrs : List (String × String)), hasKey attrs "category" = true →
      categorizeNode un (n, attrs) = (n, attrs)) := by
  constructor
  · intro g
    show Graph.mk (((g.nodes.map (categorizeNode un)).map (categorizeNode un))) g.edges =
      Graph.mk (g.nodes.map (categorizeNode un)) g.edges
    congr 1
    rw [List.map_map]
    exact List.map_congr_left fun nd _ => categorizeNode_idem un nd
  · intro n attrs h
    exact categorizeNode_hasKey_category h

/-- Witness for C9 at a node that already carries both category and type. -/
theorem c9_categorize_idempotent_witness :
    hasKey [("category", "foo"), ("type", "biolink:Gene")] "category" = true ∧
    categorizeNode (fun s => s) ("n", [("category", "foo"), ("type", "biolink:Gene")]) =
      ("n", [("category", "foo"), ("type", "biolink:Gene")]) :=
  ⟨by decide,
    (c9_categorize_idempotent (fun s => s)).2 "n"
      [("category", "foo"), ("type", "biolink:Gene")] (by decide)⟩

/-- C10: the caller-supplied limit short-circuit only breaks the inner
pagination loop of the predicate being processed: the fetch is exactly the
concatenation of each predicate's own count-plus-pagination trace, started at
offset 0 independently of earlier predicates, followed by the categorize
call; in particular every predicate with a positive reported count gets its
offset-0 edge page even when an earlier predicate hit the limit. -/
theorem c10_limit_is_per_predicate (ep : Endpoint) (preds : List String) (L : Nat) :
    RedSparqlTransformer.load_networkx_graph ep preds (some L) =
      preds.flatMap (perPredicate ep (some L)) ++ [Event.categorizeCall] ∧
    (∀ p ∈ preds, 0 < ep.count (wrapIri p) →
      Event.edgeQuery (wrapIri p) 0 1000 ∈
        RedSparqlTransformer.load_networkx_graph ep preds (some L)) := by
  refine ⟨rfl, ?_⟩
  intro p hp hc
  unfold RedSparqlTransformer.load_networkx_graph
  rw [List.mem_append, List.mem_flatMap]
  left
  refine ⟨p, hp, ?_⟩
  unfold perPredicate
  rw [List.mem_cons]
  right
  rw [pageEnds_eq]
  have hm : 1 ≤ (ep.count (wrapIri p) + 999) / 1000 := by
    rw [Nat.le_div_iff_mul_le (by omega)]
    omega
  obtain ⟨m, hm2⟩ : ∃ m, (ep.count (wrapIri p) + 999) / 1000 = m + 1 :=
    ⟨(ep.count (wrapIri p) + 999) / 1000 - 1, by omega⟩
  rw [hm2, List.range'_succ, processPages_cons_some, List.mem_append]
  left
  unfold processPage
  exact List.mem_cons_self _ _

/-- Witness for C10: with limit 0 the first predicate stops after one page,
yet the second predicate still gets its offset-0 page; exactly one page per
predicate is fetched. -/
theorem c10_limit_is_per_predicate_witness :
    ("p2" ∈ ["p1", "p2"]) ∧ 0 < (constEndpoint 5000 [] []).count (wrapIri "p2") ∧
    Event.edgeQuery (wrapIri "p2") 0 1000 ∈
      RedSparqlTransformer.load_networkx_graph (constEndpoint 5000 [] [])
        ["p1", "p2"] (some 0) ∧
    (edgeQueries (RedSparqlTransformer.load_networkx_graph (constEndpoint 5000 [] [])
        ["p1", "p2"] (some 0))).length = 2 :=
  ⟨by decide, by decide,
    (c10_limit_is_per_predicate (constEndpoint 5000 [] []) ["p1", "p2"] 0).2 "p2"
      (by decide) (by decide),
    by decide⟩

end Claims
